import Mathlib

/-!
Verification of the job-tracker TUI (`planner.py`) against its specification.

The Python source is shallowly embedded: records become a Lean structure,
strings become `List Char`, `datetime` values become integers (seconds), and
every stateful method becomes an explicit function on an application-state
structure.  Python's `list.sort(key=...)` is a stable sort; it is embedded as
`List.insertionSort`, which is stable with the corresponding key order.
Python object identity (`id(...)`) is modelled by an `oid : Nat` tag carried on
each record; Python `==` on the dataclass compares the data fields only and is
modelled by `sameFields` (equality after erasing `oid`).
-/

namespace JobTracker

/-- Python strings are modelled as lists of characters. -/
abbrev Str := List Char

/-- Python `str.lower()` (modelled on the ASCII range via `Char.toLower`). -/
def lowerStr (s : Str) : Str := s.map Char.toLower

/-- The `JobApplication` dataclass from `planner.py`: one record with the 17
data fields of the source, plus an `oid` tag modelling Python object identity
(`id(job)`).  `oid` is NOT a data field: Python `==` ignores it. -/
structure Job where
  oid : Nat
  company : Str
  position : Str
  date_applied : Str
  status : Str
  link : Str
  notes : Str
  interview_date : Str
  interview_time : Str
  interview_type : Str
  last_contact : Str
  next_followup : Str
  salary_min : Str
  salary_max : Str
  salary_offered : Str
  recruiter_name : Str
  recruiter_email : Str
  recruiter_phone : Str
deriving DecidableEq, Repr

/-- Erase the identity tag, keeping only the dataclass fields. -/
def clearOid (j : Job) : Job := { j with oid := 0 }

/-- Python `==` on two `JobApplication` dataclass instances: equality of all
17 data fields (object identity is ignored). -/
def sameFields (a b : Job) : Prop := clearOid a = clearOid b

instance : DecidableRel sameFields := fun a b =>
  inferInstanceAs (Decidable (clearOid a = clearOid b))

theorem sameFields_refl (a : Job) : sameFields a a := rfl

/-- Helper to build a record with the four main fields set and every other
field empty (used for concrete test inputs). -/
def mkJob (oid : Nat) (company position date_applied status : String) : Job :=
  { oid := oid
    company := company.toList
    position := position.toList
    date_applied := date_applied.toList
    status := status.toList
    link := [], notes := [], interview_date := [], interview_time := []
    interview_type := [], last_contact := [], next_followup := []
    salary_min := [], salary_max := [], salary_offered := []
    recruiter_name := [], recruiter_email := [], recruiter_phone := [] }

/-! ### Filtering (`_apply_filter`, `_get_display_jobs`) -/

/-- The filter predicate of `_apply_filter`:
`filter_lower in job.company.lower() or filter_lower in job.position.lower()`.
Python's `in` on strings is substring containment, i.e. `List.IsInfix`. -/
def jobMatches (filter_text : Str) (j : Job) : Bool :=
  let filter_lower := lowerStr filter_text
  decide (filter_lower <:+: lowerStr j.company) ||
    decide (filter_lower <:+: lowerStr j.position)

/-- `_apply_filter` composed with `_get_display_jobs`: with an empty
`filter_text` the canonical list itself is displayed, otherwise the
list comprehension `[job for job in self.jobs if ...]`. -/
def displayJobs (filter_text : Str) (jobs : List Job) : List Job :=
  if filter_text = [] then jobs else jobs.filter (jobMatches filter_text)

theorem jobMatches_nil (j : Job) : jobMatches [] j = true := by
  simp [jobMatches, lowerStr]

theorem displayJobs_eq_filter (ft : Str) (jobs : List Job) :
    displayJobs ft jobs = jobs.filter (jobMatches ft) := by
  unfold displayJobs
  split
  · next h =>
    subst h
    exact (List.filter_eq_self.mpr fun a _ => jobMatches_nil a).symm
  · rfl

/-- C1.  For every canonical list of records and every filter string, the
displayed list is exactly the order-preserving subsequence of the canonical
list consisting of records whose company or position contains the filter text
as a case-insensitive substring; the empty filter displays the full list. -/
theorem filter_displays_matching_subsequence (ft : Str) (jobs : List Job) :
    displayJobs ft jobs = jobs.filter (jobMatches ft) ∧
    (displayJobs ft jobs).Sublist jobs ∧
    displayJobs [] jobs = jobs := by
  refine ⟨displayJobs_eq_filter ft jobs, ?_, rfl⟩
  rw [displayJobs_eq_filter]
  exact List.filter_sublist jobs

/-! ### Date parsing (`_parse_date` and `datetime.strptime(s, "%Y-%m-%d")`) -/

/-- The numeric value of a decimal digit character, `none` otherwise. -/
def digitVal (c : Char) : Option Nat :=
  if '0' ≤ c ∧ c ≤ '9' then some (c.toNat - 48) else none

/-- Gregorian leap-year rule (as used by `datetime`). -/
def isLeap (y : Nat) : Bool :=
  (y % 4 = 0 && y % 100 != 0) || y % 400 = 0

/-- Number of days in a month of a given year. -/
def daysInMonth (y m : Nat) : Nat :=
  if m = 2 then (if isLeap y then 29 else 28)
  else if m = 4 ∨ m = 6 ∨ m = 9 ∨ m = 11 then 30
  else 31

/-- `datetime.strptime(s, "%Y-%m-%d")`, modelled on the canonical zero-padded
`YYYY-MM-DD` form the program writes (Python additionally tolerates shorter
digit runs).  Returns the calendar triple on success, `none` on `ValueError`
(wrong shape, or year/month/day out of the ranges `datetime` accepts). -/
def parseYMD (s : Str) : Option (Nat × Nat × Nat) :=
  match s with
  | [y1, y2, y3, y4, c1, m1, m2, c2, d1, d2] =>
    if c1 = '-' ∧ c2 = '-' then
      match digitVal y1, digitVal y2, digitVal y3, digitVal y4,
            digitVal m1, digitVal m2, digitVal d1, digitVal d2 with
      | some a, some b, some c, some d, some e, some f, some g, some h =>
        let y := 1000 * a + 100 * b + 10 * c + d
        let m := 10 * e + f
        let dd := 10 * g + h
        if 1 ≤ y ∧ 1 ≤ m ∧ m ≤ 12 ∧ 1 ≤ dd ∧ dd ≤ daysInMonth y m then
          some (y, m, dd)
        else none
      | _, _, _, _, _, _, _, _ => none
    else none
  | _ => none

/-- Days since 1970-01-01 of a calendar date (the standard civil-from-days
inverse, matching `datetime`'s proleptic Gregorian calendar). -/
def daysFromCivil (y m d : Int) : Int :=
  let y' : Int := if m ≤ 2 then y - 1 else y
  let era : Int := (if 0 ≤ y' then y' else y' - 399) / 400
  let yoe : Int := y' - era * 400
  let mp : Int := (m + 9) % 12
  let doy : Int := (153 * mp + 2) / 5 + d - 1
  let doe : Int := yoe * 365 + yoe / 4 - yoe / 100 + doy
  era * 146097 + doe - 719468

/-- `strptime` result as a day number (days since the Unix epoch). -/
def parseDateDays (s : Str) : Option Int :=
  (parseYMD s).map fun t => daysFromCivil t.1 t.2.1 t.2.2

/-- Seconds-since-epoch of midnight of a day number: parsed dates carry time
`00:00:00`, so `datetime` comparisons are comparisons of these timestamps. -/
def tsOfDays (d : Int) : Int := d * 86400

/-- Timestamp of `datetime.min` = 0001-01-01 00:00:00 (equal to the timestamp
of a parsed `"0001-01-01"`). -/
def minTs : Int := tsOfDays (daysFromCivil 1 1 1)

/-- Timestamp of `datetime.max` = 9999-12-31 23:59:59.999999, modelled at
second resolution: strictly above the midnight timestamp of every parsable
date. -/
def maxTs : Int := tsOfDays (daysFromCivil 9999 12 31) + 86399

/-- `_parse_date`, as a timestamp: a valid `YYYY-MM-DD` string parses to the
midnight timestamp of its date; on `ValueError` the fallback is
`datetime.min if self.sort_ascending else datetime.max`. -/
def parseDateTs (sort_ascending : Bool) (s : Str) : Int :=
  match parseDateDays s with
  | some d => tsOfDays d
  | none => if sort_ascending then minTs else maxTs

/-! ### Sorting (`_sort_by_date`, `_sort_by_status_date`, `_sort_jobs`)

Python's `list.sort` is a stable sort; `sort(key=k, reverse=r)` is the stable
sort with respect to `k a ≤ k b` (resp. `k b ≤ k a` when `r` is true), which
is exactly `List.insertionSort` with that relation. -/

/-- The comparison `_sort_by_date` sorts by:
`key=lambda job: self._parse_date(job.date_applied), reverse=not sort_ascending`. -/
def dateLeB (asc : Bool) (a b : Job) : Bool :=
  if asc then
    decide (parseDateTs asc a.date_applied ≤ parseDateTs asc b.date_applied)
  else
    decide (parseDateTs asc b.date_applied ≤ parseDateTs asc a.date_applied)

/-- `_sort_by_date`. -/
def sortByDate (asc : Bool) (jobs : List Job) : List Job :=
  List.insertionSort (fun a b => dateLeB asc a b = true) jobs

/-- `self.status_priority` with `.get(status, 999)`. -/
def statusPriority (s : Str) : Nat :=
  if s = ("Interview").toList then 1
  else if s = ("Applied").toList then 2
  else if s = ("Offer").toList then 3
  else if s = ("Rejected").toList then 4
  else if s = ("Withdrawn").toList then 5
  else 999

/-- The sort key of `_sort_by_status_date`:
`(priority, -date.timestamp())`. -/
def statusKey (asc : Bool) (j : Job) : Nat × Int :=
  (statusPriority j.status, -(parseDateTs asc j.date_applied))

/-- Lexicographic comparison of `statusKey` (Python tuple comparison). -/
def statusLeB (asc : Bool) (a b : Job) : Bool :=
  decide ((statusKey asc a).1 < (statusKey asc b).1) ||
    (decide ((statusKey asc a).1 = (statusKey asc b).1) &&
      decide ((statusKey asc a).2 ≤ (statusKey asc b).2))

/-- `_sort_by_status_date`. -/
def sortByStatusDate (asc : Bool) (jobs : List Job) : List Job :=
  List.insertionSort (fun a b => statusLeB asc a b = true) jobs

/-- `_sort_jobs`: dispatch on `sort_by_status`. -/
def sortJobs (sort_by_status sort_ascending : Bool) (jobs : List Job) :
    List Job :=
  if sort_by_status then sortByStatusDate sort_ascending jobs
  else sortByDate sort_ascending jobs

/-! ### General sorting lemmas -/

theorem orderedInsert_congr {α : Type} {r₁ r₂ : α → α → Prop}
    [DecidableRel r₁] [DecidableRel r₂] (a : α) (l : List α)
    (h : ∀ b ∈ l, r₁ a b ↔ r₂ a b) :
    l.orderedInsert r₁ a = l.orderedInsert r₂ a := by
  induction l with
  | nil => rfl
  | cons b t ih =>
    by_cases hb : r₁ a b
    · rw [List.orderedInsert, List.orderedInsert, if_pos hb,
        if_pos ((h b (List.mem_cons_self b t)).mp hb)]
    · rw [List.orderedInsert, List.orderedInsert, if_neg hb,
        if_neg (fun hc => hb ((h b (List.mem_cons_self b t)).mpr hc)),
        ih (fun c hc => h c (List.mem_cons_of_mem b hc))]

theorem insertionSort_congr {α : Type} {r₁ r₂ : α → α → Prop}
    [DecidableRel r₁] [DecidableRel r₂] (l : List α)
    (h : ∀ a ∈ l, ∀ b ∈ l, r₁ a b ↔ r₂ a b) :
    l.insertionSort r₁ = l.insertionSort r₂ := by
  induction l with
  | nil => rfl
  | cons a t ih =>
    rw [List.insertionSort, List.insertionSort,
      ih (fun x hx y hy =>
        h x (List.mem_cons_of_mem a hx) y (List.mem_cons_of_mem a hy))]
    exact orderedInsert_congr a _ fun b hb =>
      h a (List.mem_cons_self a t) b
        (List.mem_cons_of_mem a ((List.mem_insertionSort r₂).mp hb))

/-- If a record's `date_applied` parses, `_parse_date` does not depend on the
`sort_ascending` flag. -/
theorem parseDateTs_of_parses {s : Str} {d : Int}
    (h : parseDateDays s = some d) (asc : Bool) :
    parseDateTs asc s = tsOfDays d := by
  unfold parseDateTs
  rw [h]

theorem statusLeB_total (asc : Bool) (a b : Job) :
    statusLeB asc a b = true ∨ statusLeB asc b a = true := by
  simp only [statusLeB, Bool.or_eq_true, Bool.and_eq_true, decide_eq_true_eq]
  omega

theorem statusLeB_trans (asc : Bool) (a b c : Job)
    (h₁ : statusLeB asc a b = true) (h₂ : statusLeB asc b c = true) :
    statusLeB asc a c = true := by
  simp only [statusLeB, Bool.or_eq_true, Bool.and_eq_true,
    decide_eq_true_eq] at h₁ h₂ ⊢
  omega

/-! ### C2: status-priority sort -/

/-- Two records of equal status, one with an unparsable date. -/
def c2A : Job := mkJob 1 "Acme" "Dev" "2024-01-01" "Applied"

def c2B : Job := mkJob 2 "Beta" "Ops" "not-a-date" "Applied"

/-- C2, counterexample.  The claim asserts the status-sorted order is
identical for `sort_ascending = true` and `false`, including records with
unparsable `date_applied`.  It is not: with an unparsable date the fallback is
`datetime.min` (ascending) or `datetime.max` (descending), and after key
negation the unparsable record goes last in its status group when ascending
and first when descending. -/
theorem statusSort_depends_on_direction_for_unparsable :
    sortByStatusDate true [c2A, c2B] = [c2A, c2B] ∧
    sortByStatusDate false [c2A, c2B] = [c2B, c2A] ∧
    sortByStatusDate true [c2A, c2B] ≠ sortByStatusDate false [c2A, c2B] := by
  refine ⟨by decide, by decide, by decide⟩

/-- C2, amended.  The status-date sort is a permutation of its input, sorted
by the lexicographic key (status priority ascending, then negated timestamp,
i.e. newest date first within a status group); and whenever every record's
`date_applied` parses, the resulting order is identical for
`sort_ascending = true` and `sort_ascending = false`. -/
theorem statusSort_sorted_and_direction_independent_on_parsable
    (asc : Bool) (jobs : List Job)
    (h : ∀ j ∈ jobs, (parseDateDays j.date_applied).isSome) :
    (sortByStatusDate asc jobs).Perm jobs ∧
    List.Sorted (fun a b => statusLeB asc a b = true)
      (sortByStatusDate asc jobs) ∧
    sortByStatusDate true jobs = sortByStatusDate false jobs := by
  refine ⟨List.perm_insertionSort _ jobs, ?_, ?_⟩
  · haveI : IsTotal Job (fun a b => statusLeB asc a b = true) :=
      ⟨statusLeB_total asc⟩
    haveI : IsTrans Job (fun a b => statusLeB asc a b = true) :=
      ⟨statusLeB_trans asc⟩
    exact List.sorted_insertionSort _ jobs
  · apply insertionSort_congr
    intro a ha b hb
    obtain ⟨da, hda⟩ := Option.isSome_iff_exists.mp (h a ha)
    obtain ⟨db, hdb⟩ := Option.isSome_iff_exists.mp (h b hb)
    simp only [statusLeB, statusKey, parseDateTs_of_parses hda,
      parseDateTs_of_parses hdb]

def c2W1 : Job := mkJob 1 "Acme" "Dev" "2024-03-01" "Interview"

def c2W2 : Job := mkJob 2 "Beta" "Ops" "2024-01-15" "Applied"

theorem statusSort_direction_independent_witness :
    (sortByStatusDate true [c2W1, c2W2]).Perm [c2W1, c2W2] ∧
    List.Sorted (fun a b => statusLeB true a b = true)
      (sortByStatusDate true [c2W1, c2W2]) ∧
    sortByStatusDate true [c2W1, c2W2] = sortByStatusDate false [c2W1, c2W2] :=
  statusSort_sorted_and_direction_independent_on_parsable true
    [c2W1, c2W2] (by decide)

/-! ### C3: date sort and unparsable dates -/

def c3A : Job := mkJob 1 "Acme" "Dev" "2024-01-01" "Applied"

def c3B : Job := mkJob 2 "Beta" "Ops" "not-a-date" "Applied"

/-- C3.  The claim (and the comment inside `_parse_date`: "put them at the
end") says records with unparsable `date_applied` end up after all parsable
records for both sort directions.  The code does the opposite: the fallback
`datetime.min if sort_ascending else datetime.max` places the unparsable
record first in both directions (minimal key in an ascending sort, maximal
key in a descending sort).  This theorem evaluates the embedded
`_sort_by_date` at the failing input. -/
theorem dateSort_places_unparsable_first :
    sortByDate false [c3A, c3B] = [c3B, c3A] ∧
    sortByDate true [c3A, c3B] = [c3B, c3A] := by
  refine ⟨by decide, by decide⟩

/-! ### Application state and focus handling -/

/-- The mutable state of `JobTrackerApp` relevant to the claims: the canonical
list, the two sort flags, the filter text, the focus position of the list
walker, and the multi-select state (`selected` holds `id(job)` values).  The
derived `filtered_jobs` cache is not stored: the code recomputes it via
`_apply_filter` after every mutation on the paths modelled here, so the
displayed list is always `displayJobs filter_text jobs`. -/
structure AppState where
  jobs : List Job
  sort_by_status : Bool
  sort_ascending : Bool
  filter_text : Str
  focus : Nat
  multi_select_mode : Bool
  selected : List Nat
deriving DecidableEq, Repr

/-- Python `list.index(x)` (with dataclass `==`, i.e. `sameFields`): index of
the first field-equal element, `none` for `ValueError`. -/
def indexOfEq (l : List Job) (j : Job) : Option Nat :=
  match l with
  | [] => none
  | a :: t => if sameFields a j then some 0 else (indexOfEq t j).map (· + 1)

/-- The capture step of `_apply_sort_and_refresh`: `focused_job` is
`self.jobs[focus_pos]` — the canonical list indexed by the display-level
focus — guarded by `self.jobs` being nonempty and `0 <= focus_pos <
len(self.jobs)`.  (The `len(self.job_list) > 0` guard always holds: the
rebuilt walker contains at least a placeholder message.) -/
def captureFocused (st : AppState) : Option Job :=
  if st.jobs ≠ [] ∧ st.focus < st.jobs.length then st.jobs[st.focus]? else none

/-- The restore step of `_apply_sort_and_refresh`: if a job was captured and
the new displayed list is nonempty, `display_jobs.index(focused_job)` (first
field-equal position) becomes the focus; on `ValueError` the focus defaults
to the top (`set_focus(0)`).  Rebuilding the list walker itself leaves the
focus at 0, so every other branch also yields 0. -/
def restoreFocus (disp : List Job) (focused : Option Job) : Nat :=
  match focused with
  | some j =>
    if disp ≠ [] then
      match indexOfEq disp j with
      | some i => i
      | none => 0
    else 0
  | none => 0

/-- `_apply_sort_and_refresh`. -/
def applySortAndRefresh (st : AppState) : AppState :=
  let jobs' := sortJobs st.sort_by_status st.sort_ascending st.jobs
  { st with
    jobs := jobs'
    focus := restoreFocus (displayJobs st.filter_text jobs') (captureFocused st) }

/-- `_toggle_sort_direction`. -/
def toggleSortDirection (st : AppState) : AppState :=
  applySortAndRefresh { st with sort_ascending := !st.sort_ascending }

/-- `_toggle_sort_mode`. -/
def toggleSortMode (st : AppState) : AppState :=
  applySortAndRefresh { st with sort_by_status := !st.sort_by_status }

theorem sortJobs_perm (b asc : Bool) (jobs : List Job) :
    (sortJobs b asc jobs).Perm jobs := by
  unfold sortJobs
  split
  · exact List.perm_insertionSort _ jobs
  · exact List.perm_insertionSort _ jobs

theorem indexOfEq_unique (l : List Job) (j : Job) (hj : j ∈ l)
    (huniq : ∀ x ∈ l, sameFields x j → x = j) :
    ∃ i, indexOfEq l j = some i ∧ l[i]? = some j := by
  induction l with
  | nil => cases hj
  | cons a t ih =>
    by_cases ha : sameFields a j
    · refine ⟨0, ?_, ?_⟩
      · unfold indexOfEq
        rw [if_pos ha]
      · rw [huniq a (List.mem_cons_self a t) ha]
        simp
    · have hjt : j ∈ t := by
        rcases List.mem_cons.mp hj with h | h
        · exact absurd (h ▸ sameFields_refl j) ha
        · exact h
      obtain ⟨i, hfind, hget⟩ :=
        ih hjt fun x hx => huniq x (List.mem_cons_of_mem a hx)
      refine ⟨i + 1, ?_, ?_⟩
      · unfold indexOfEq
        rw [if_neg ha, hfind]
        rfl
      · simpa using hget

/-! ### C4: focus preservation -/

def c4J1 : Job := mkJob 1 "Alpha" "Dev" "2024-01-01" "Applied"

def c4J2 : Job := mkJob 2 "Beta" "Ops" "2024-01-02" "Applied"

def c4J3 : Job := mkJob 3 "Bravo" "QA" "2024-01-03" "Applied"

/-- A state with filter "b" active: displayed list is `[c4J2, c4J3]` and the
focus (index 1) is on `c4J3`. -/
def c4St : AppState :=
  { jobs := [c4J1, c4J2, c4J3], sort_by_status := false, sort_ascending := true
    filter_text := ("b").toList, focus := 1
    multi_select_mode := false, selected := [] }

/-- C4, counterexample.  With the filter "b" active, the displayed list of
`c4St` is `[c4J2, c4J3]` and the focus is on `c4J3`.  Toggling the sort
direction captures `self.jobs[1] = c4J2` (a canonical-list index, not a
displayed-list index), so afterwards the focus is 1 — which holds `c4J2` —
even though the previously focused record `c4J3` is present at index 0 of the
new displayed list.  The claimed focus contract fails under a non-empty
filter. -/
theorem focus_not_preserved_with_filter :
    (displayJobs c4St.filter_text c4St.jobs)[c4St.focus]? = some c4J3 ∧
    (displayJobs (toggleSortDirection c4St).filter_text
      (toggleSortDirection c4St).jobs)[0]? = some c4J3 ∧
    (toggleSortDirection c4St).focus = 1 ∧
    (displayJobs (toggleSortDirection c4St).filter_text
      (toggleSortDirection c4St).jobs)[1]? = some c4J2 ∧
    c4J2 ≠ c4J3 := by
  refine ⟨by decide, by decide, by decide, by decide, by decide⟩

/-- C4, amended.  The code captures `self.jobs[focus_pos]` (canonical index),
restores via first-field-equal search, and falls back to the top of the list
rather than clamping to the end.  Consequently focus preservation holds in
the identity sense only in the unmixed situation: with no filter active, a
valid focus, and pairwise field-distinct records, the record at the focus
position before `_apply_sort_and_refresh` is at the focus position
afterwards. -/
theorem focus_preserved_without_filter (st : AppState) (j : Job)
    (hf : st.filter_text = [])
    (hj : st.jobs[st.focus]? = some j)
    (hdist : st.jobs.Pairwise (fun a b => ¬ sameFields a b)) :
    (displayJobs (applySortAndRefresh st).filter_text
      (applySortAndRefresh st).jobs)[(applySortAndRefresh st).focus]? =
      some j := by
  have hlt : st.focus < st.jobs.length := by
    rcases List.getElem?_eq_some.mp hj with ⟨hlt, _⟩
    exact hlt
  have hne : st.jobs ≠ [] := by
    intro h
    rw [h] at hlt
    cases hlt
  have hcap : captureFocused st = some j := by
    unfold captureFocused
    rw [if_pos ⟨hne, hlt⟩]
    exact hj
  have hmem : j ∈ st.jobs := by
    rcases List.getElem?_eq_some.mp hj with ⟨hlt', rfl⟩
    exact List.getElem_mem hlt'
  set jobs' := sortJobs st.sort_by_status st.sort_ascending st.jobs with hjobs'
  have hperm : jobs'.Perm st.jobs := sortJobs_perm _ _ _
  have hmem' : j ∈ jobs' := hperm.mem_iff.mpr hmem
  have hne' : jobs' ≠ [] := List.ne_nil_of_mem hmem'
  have hsymm : Symmetric (fun a b : Job => ¬ sameFields a b) :=
    fun _ _ hab hba => hab (Eq.symm hba)
  have huniq : ∀ x ∈ jobs', sameFields x j → x = j := by
    intro x hx hsame
    by_contra hxj
    exact List.Pairwise.forall hsymm hdist (hperm.mem_iff.mp hx) hmem hxj hsame
  obtain ⟨i, hfind, hget⟩ := indexOfEq_unique jobs' j hmem' huniq
  have hdisp : displayJobs st.filter_text jobs' = jobs' := by
    rw [hf]
    rfl
  have hres : restoreFocus jobs' (some j) = i := by
    show (if jobs' ≠ [] then
      (match indexOfEq jobs' j with | some k => k | none => 0) else 0) = i
    rw [if_pos hne', hfind]
  dsimp only [applySortAndRefresh]
  rw [← hjobs', hdisp, hcap, hres]
  exact hget

def c4WSt : AppState :=
  { jobs := [c4J1, c4J2, c4J3], sort_by_status := false, sort_ascending := false
    filter_text := [], focus := 0
    multi_select_mode := false, selected := [] }

theorem focus_preserved_without_filter_witness :
    (displayJobs (applySortAndRefresh c4WSt).filter_text
      (applySortAndRefresh c4WSt).jobs)[(applySortAndRefresh c4WSt).focus]? =
      some c4J1 :=
  focus_preserved_without_filter c4WSt c4J1 rfl (by decide) (by decide)

/-! ### Persistence (`load_jobs`, `save_jobs`)

The persisted file is modelled at the JSON-value level: `none` stands for an
unreadable input (`json.JSONDecodeError` / `IOError`), `some v` for a
successfully decoded JSON document.  Python exceptions inside `load_jobs` are
modelled by `Except`: `KeyError` (a record object missing a required key) is
caught by the handler, while a `TypeError` (a list element that is not an
object, or a document whose `jobs` data is not a list) is NOT in the caught
tuple `(json.JSONDecodeError, KeyError, IOError)` and crashes the app; it is
modelled as the `Except.error ()` outcome of `loadJobs`.  As a modelling
restriction, a present-but-non-string record field and a non-boolean
preference value (which Python would store verbatim, deferring any failure)
are treated as `TypeError` / as the default respectively. -/

inductive Json where
  | null
  | bool (b : Bool)
  | num (n : Int)
  | str (s : Str)
  | arr (xs : List Json)
  | obj (kvs : List (Str × Json))

/-- Lookup in a decoded JSON object.  `json.load` builds a `dict`, where a
duplicated key keeps the last value, hence the last-binding-wins lookup. -/
def objGet : List (Str × Json) → Str → Option Json
  | [], _ => none
  | kv :: rest, key =>
    match objGet rest key with
    | some v => some v
    | none => if kv.1 = key then some kv.2 else none

/-- The two exception kinds `load_jobs` can meet while reading records:
`keyError` is caught by its handler, `typeError` is not. -/
inductive PyErr where
  | keyError
  | typeError
deriving DecidableEq, Repr

/-- `item["name"]`: a required string field. -/
def getStrField (kvs : List (Str × Json)) (k : Str) : Except PyErr Str :=
  match objGet kvs k with
  | some (.str s) => .ok s
  | some _ => .error .typeError
  | none => .error .keyError

/-- `item.get("name", default)`: an optional string field. -/
def getStrOpt (kvs : List (Str × Json)) (k : Str) (d : Str) : Except PyErr Str :=
  match objGet kvs k with
  | some (.str s) => .ok s
  | some _ => .error .typeError
  | none => .ok d

/-- `data.get("name", default)` for the boolean preferences. -/
def getBoolOpt (kvs : List (Str × Json)) (k : Str) (d : Bool) : Bool :=
  match objGet kvs k with
  | some (.bool b) => b
  | _ => d

/-- `data.get("filter_text", "")`. -/
def getStrPref (kvs : List (Str × Json)) (k : Str) : Str :=
  match objGet kvs k with
  | some (.str s) => s
  | _ => []

/-- The three persisted preferences. -/
structure Prefs where
  sort_by_status : Bool
  sort_ascending : Bool
  filter_text : Str
deriving DecidableEq, Repr

/-- The preference values set in `__init__` before `load_jobs` runs. -/
def defaultPrefs : Prefs :=
  { sort_by_status := false, sort_ascending := false, filter_text := [] }

/-- The preference-reading block of `load_jobs` (executed before any record
is parsed). -/
def readPrefs (kvs : List (Str × Json)) : Prefs :=
  { sort_by_status := getBoolOpt kvs (("sort_by_status").toList) false
    sort_ascending := getBoolOpt kvs (("sort_ascending").toList) false
    filter_text := getStrPref kvs (("filter_text").toList) }

/-- The `JobApplication(...)` construction inside the `load_jobs` loop, with
the fields read in the source's argument order.  Loaded records are fresh
objects; their identity tag is irrelevant and set to 0. -/
def parseJob (item : Json) : Except PyErr Job :=
  match item with
  | .obj kvs =>
    Except.bind (getStrField kvs (("company").toList)) fun company =>
    Except.bind (getStrField kvs (("position").toList)) fun position =>
    Except.bind (getStrField kvs (("date_applied").toList)) fun date_applied =>
    Except.bind (getStrOpt kvs (("status").toList) (("Applied").toList))
      fun status =>
    Except.bind (getStrOpt kvs (("link").toList) []) fun link =>
    Except.bind (getStrOpt kvs (("notes").toList) []) fun notes =>
    Except.bind (getStrOpt kvs (("interview_date").toList) [])
      fun interview_date =>
    Except.bind (getStrOpt kvs (("interview_time").toList) [])
      fun interview_time =>
    Except.bind (getStrOpt kvs (("interview_type").toList) [])
      fun interview_type =>
    Except.bind (getStrOpt kvs (("last_contact").toList) [])
      fun last_contact =>
    Except.bind (getStrOpt kvs (("next_followup").toList) [])
      fun next_followup =>
    Except.bind (getStrOpt kvs (("salary_min").toList) []) fun salary_min =>
    Except.bind (getStrOpt kvs (("salary_max").toList) []) fun salary_max =>
    Except.bind (getStrOpt kvs (("salary_offered").toList) [])
      fun salary_offered =>
    Except.bind (getStrOpt kvs (("recruiter_name").toList) [])
      fun recruiter_name =>
    Except.bind (getStrOpt kvs (("recruiter_email").toList) [])
      fun recruiter_email =>
    Except.bind (getStrOpt kvs (("recruiter_phone").toList) [])
      fun recruiter_phone =>
    .ok { oid := 0, company, position, date_applied, status, link, notes
          interview_date, interview_time, interview_type, last_contact
          next_followup, salary_min, salary_max, salary_offered
          recruiter_name, recruiter_email, recruiter_phone }
  | _ => .error .typeError

/-- The `for item in jobs_data` loop over a decoded list (the first exception
aborts the loop; the handler then discards all partially-built records). -/
def parseJobsList : List Json → Except PyErr (List Job)
  | [] => .ok []
  | item :: rest =>
    match parseJob item with
    | .error e => .error e
    | .ok j =>
      match parseJobsList rest with
      | .error e => .error e
      | .ok js => .ok (j :: js)

/-- Iterating `jobs_data`: a decoded list is iterated element-wise; iterating
any other decoded value and indexing its elements with string keys raises
`TypeError` (this is what happens to a `dict` without a `"jobs"` key, whose
iteration yields its key strings). -/
def parseJobs : Json → Except PyErr (List Job)
  | .arr items => parseJobsList items
  | _ => .error .typeError

/-- `load_jobs`.  The `cur` argument is the preference state on entry (the
defaults, when called from `__init__`).  Note the order in the source: for a
wrapper object the three preferences are assigned from the file BEFORE the
record loop runs, and the `except (json.JSONDecodeError, KeyError, IOError)`
handler only resets `self.jobs`, so a `KeyError` in the loop keeps the file's
preferences. -/
def loadJobs (cur : Prefs) (input : Option Json) :
    Except Unit (Prefs × List Job) :=
  match input with
  | none => .ok (cur, [])
  | some data =>
    let wrapper : Option (List (Str × Json) × Json) :=
      match data with
      | .obj kvs =>
        match objGet kvs (("jobs").toList) with
        | some jd => some (kvs, jd)
        | none => none
      | _ => none
    match wrapper with
    | some (kvs, jd) =>
      let prefs := readPrefs kvs
      match parseJobs jd with
      | .ok js => .ok (prefs, js)
      | .error .keyError => .ok (prefs, [])
      | .error .typeError => .error ()
    | none =>
      match parseJobs data with
      | .ok js => .ok (cur, js)
      | .error .keyError => .ok (cur, [])
      | .error .typeError => .error ()

/-- One record as written by `save_jobs` (all 17 fields, in source order). -/
def jobToJson (j : Job) : Json :=
  .obj [ ((("company").toList), .str j.company)
       , ((("position").toList), .str j.position)
       , ((("date_applied").toList), .str j.date_applied)
       , ((("status").toList), .str j.status)
       , ((("link").toList), .str j.link)
       , ((("notes").toList), .str j.notes)
       , ((("interview_date").toList), .str j.interview_date)
       , ((("interview_time").toList), .str j.interview_time)
       , ((("interview_type").toList), .str j.interview_type)
       , ((("last_contact").toList), .str j.last_contact)
       , ((("next_followup").toList), .str j.next_followup)
       , ((("salary_min").toList), .str j.salary_min)
       , ((("salary_max").toList), .str j.salary_max)
       , ((("salary_offered").toList), .str j.salary_offered)
       , ((("recruiter_name").toList), .str j.recruiter_name)
       , ((("recruiter_email").toList), .str j.recruiter_email)
       , ((("recruiter_phone").toList), .str j.recruiter_phone) ]

/-- The document `save_jobs` writes. -/
def saveData (p : Prefs) (jobs : List Job) : Json :=
  .obj [ ((("sort_by_status").toList), .bool p.sort_by_status)
       , ((("sort_ascending").toList), .bool p.sort_ascending)
       , ((("filter_text").toList), .str p.filter_text)
       , ((("jobs").toList), .arr (jobs.map jobToJson)) ]

/-! ### C5: failure behaviour of `load_jobs` -/

/-- A well-formed wrapper object whose single record is missing the required
`company` field. -/
def c5kvs : List (Str × Json) :=
  [ ((("sort_by_status").toList), .bool true)
  , ((("jobs").toList), .arr
      [ .obj [ ((("position").toList), .str (("Engineer").toList))
             , ((("date_applied").toList), .str (("2024-01-01").toList)) ] ]) ]

/-- C5, counterexample.  Loading a wrapper object whose record list contains
a record missing the required `company` field yields an empty record set
together with the FILE's preferences (`sort_by_status = true`), not the
defaults: the preferences are assigned before the record loop, and the
`KeyError` handler only resets `self.jobs`.  This is exactly the partial
state the claim rules out. -/
theorem load_partial_prefs_on_record_failure :
    loadJobs defaultPrefs (some (.obj c5kvs)) =
      .ok ({ sort_by_status := true, sort_ascending := false
             filter_text := [] }, []) ∧
    ({ sort_by_status := true, sort_ascending := false
       filter_text := [] } : Prefs) ≠ defaultPrefs := by
  refine ⟨rfl, by decide⟩

/-- C5, amended.  On an unreadable file (JSON parse error / IO error) the
result is the empty record set with the preferences untouched (the defaults,
when called at startup); the same holds for a record-level `KeyError` in a
legacy array file.  For a new-format wrapper object, a record-level
`KeyError` still empties the record set, but the preferences read from the
wrapper before the record loop are retained. -/
theorem load_failure_state (cur : Prefs) (data : Json) :
    loadJobs cur none = .ok (cur, []) ∧
    (∀ kvs jd, data = .obj kvs → objGet kvs (("jobs").toList) = some jd →
      parseJobs jd = .error .keyError →
      loadJobs cur (some data) = .ok (readPrefs kvs, [])) ∧
    (∀ xs, data = .arr xs → parseJobs data = .error .keyError →
      loadJobs cur (some data) = .ok (cur, [])) := by
  refine ⟨rfl, ?_, ?_⟩
  · intro kvs jd hdata hget hparse
    subst hdata
    simp only [loadJobs, hget, hparse]
  · intro xs hdata hparse
    subst hdata
    simp only [loadJobs, hparse]

/-- A wrapper whose record is missing the required `date_applied` field. -/
def c5Wkvs : List (Str × Json) :=
  [ ((("filter_text").toList), .str (("acme").toList))
  , ((("jobs").toList), .arr
      [ .obj [ ((("company").toList), .str (("Acme").toList))
             , ((("position").toList), .str (("Dev").toList)) ] ]) ]

theorem load_failure_state_witness :
    loadJobs defaultPrefs (some (.obj c5Wkvs)) = .ok (readPrefs c5Wkvs, []) :=
  (load_failure_state defaultPrefs (.obj c5Wkvs)).2.1 c5Wkvs
    (.arr [ .obj [ ((("company").toList), .str (("Acme").toList))
                 , ((("position").toList), .str (("Dev").toList)) ] ])
    rfl rfl rfl

/-! ### C7: save/load round trip -/

theorem parseJob_jobToJson (j : Job) : parseJob (jobToJson j) = .ok (clearOid j) :=
  rfl

/-- C7.  For every canonical list and preference triple, `save_jobs` followed
by `load_jobs` restores the same three preference values and a record list
that is field-for-field equal to the saved one, in the same order (loaded
records are fresh objects, so equality is stated after erasing the identity
tag). -/
theorem save_load_roundtrip (cur p : Prefs) (jobs : List Job) :
    loadJobs cur (some (saveData p jobs)) = .ok (p, jobs.map clearOid) := by
  have hparse : ∀ l : List Job,
      parseJobsList (l.map jobToJson) = .ok (l.map clearOid) := by
    intro l
    induction l with
    | nil => rfl
    | cons j t ih =>
      simp only [List.map_cons, parseJobsList, parseJob_jobToJson, ih]
  show (match parseJobs (.arr (jobs.map jobToJson)) with
    | .ok js =>
      (.ok ({ sort_by_status := p.sort_by_status
              sort_ascending := p.sort_ascending
              filter_text := p.filter_text }, js) :
        Except Unit (Prefs × List Job))
    | .error .keyError =>
      .ok ({ sort_by_status := p.sort_by_status
             sort_ascending := p.sort_ascending
             filter_text := p.filter_text }, [])
    | .error .typeError => .error ()) = .ok (p, jobs.map clearOid)
  rw [parseJobs, hparse jobs]

/-! ### C8: the status invariant -/

/-- `JobApplication.get_status_options()`. -/
def statusOptions : List Str :=
  [ ("Applied").toList, ("Interview").toList, ("Offer").toList
  , ("Rejected").toList, ("Withdrawn").toList ]

/-- The status-mutation core of `_cycle_job_status`:
`status_options.index` raises `ValueError` for an unknown status, in which
case `next_index = 0`. -/
def cycleStatus (s : Str) : Str :=
  let nextIdx : Nat :=
    match statusOptions.findIdx? (fun o => decide (o = s)) with
    | some i => (i + 1) % statusOptions.length
    | none => 0
  statusOptions.getD nextIdx []

/-- The status assigned by `_migrate_from_tasks` to a legacy item. -/
def migrateStatus (completed : Bool) : Str :=
  if completed then ("Rejected").toList else ("Applied").toList

/-- The status chosen by the bulk-status dialog for digit key `d` (keys `1`
to `5` map to `status_options[d-1]`). -/
def bulkChosenStatus (d : Nat) : Str := statusOptions.getD (d - 1) []

/-- A record whose persisted status is not one of the five enum values. -/
def c8item : Json :=
  .obj [ ((("company").toList), .str (("Acme").toList))
       , ((("position").toList), .str (("Dev").toList))
       , ((("date_applied").toList), .str (("2024-01-01").toList))
       , ((("status").toList), .str (("Ghosted").toList)) ]

def c8job : Job := mkJob 0 "Acme" "Dev" "2024-01-01" "Ghosted"

/-- C8, counterexample.  `load_jobs` uses `item.get("status", "Applied")`:
only a MISSING status defaults to `"Applied"`; an unknown status string is
loaded verbatim.  Loading a file whose record carries status `"Ghosted"`
yields an application state containing a record whose status is none of the
five enum values, refuting the invariant. -/
theorem load_preserves_unknown_status :
    loadJobs defaultPrefs
        (some (.obj [ ((("jobs").toList), .arr [c8item]) ])) =
      .ok (defaultPrefs, [c8job]) ∧
    c8job.status ∉ statusOptions := by
  refine ⟨rfl, by decide⟩

theorem statusOptions_getD_mem (n : Nat) (h : n < 5) :
    statusOptions.getD n [] ∈ statusOptions := by
  interval_cases n <;> decide

/-- C8, amended.  A record with MISSING status loads as `"Applied"`, but an
unknown status string is loaded verbatim (so the five-value invariant only
holds when the file contains no out-of-range status).  Every status mutation
is closed over the five enum values: the status cycle maps any status (known
or not) into the five options, migration produces `"Rejected"`/`"Applied"`,
and the bulk-status dialog picks `status_options[d-1]` for a digit key
`1..5`.  (Record creation passes the literal `"Applied"`.) -/
theorem status_default_and_mutations_closed :
    (∀ kvs j, objGet kvs (("status").toList) = none →
      parseJob (.obj kvs) = .ok j → j.status = ("Applied").toList) ∧
    (∀ s, cycleStatus s ∈ statusOptions) ∧
    (∀ b, migrateStatus b ∈ statusOptions) ∧
    (∀ d, 1 ≤ d → d ≤ 5 → bulkChosenStatus d ∈ statusOptions) := by
  refine ⟨?_, ?_, ?_, ?_⟩
  · intro kvs j hnone hok
    have hgso : getStrOpt kvs (("status").toList) (("Applied").toList) =
        .ok (("Applied").toList) := by
      unfold getStrOpt
      rw [hnone]
    simp only [parseJob, hgso] at hok
    simp only [Except.bind] at hok
    repeat' (first | split at hok | cases hok)
    all_goals rfl
  · intro s
    unfold cycleStatus
    cases h : statusOptions.findIdx? (fun o => decide (o = s)) with
    | none => decide
    | some i =>
      exact statusOptions_getD_mem _ (Nat.mod_lt _ (by decide))
  · intro b
    cases b <;> decide
  · intro d h1 h5
    exact statusOptions_getD_mem _ (by omega)

theorem status_default_and_mutations_closed_witness :
    (mkJob 0 "Acme" "Dev" "2024-01-01" "Applied").status =
        ("Applied").toList ∧
    cycleStatus (("Interview").toList) ∈ statusOptions := by
  refine ⟨?_, status_default_and_mutations_closed.2.1 (("Interview").toList)⟩
  exact status_default_and_mutations_closed.1
    [ ((("company").toList), .str (("Acme").toList))
    , ((("position").toList), .str (("Dev").toList))
    , ((("date_applied").toList), .str (("2024-01-01").toList)) ]
    (mkJob 0 "Acme" "Dev" "2024-01-01" "Applied") rfl rfl

/-! ### Attention level (`has_upcoming_interview`, `has_overdue_followup`,
`needs_followup_soon`, `get_attention_level`)

`datetime.now()` is a full datetime; it is modelled as a day number plus the
seconds elapsed since that day's midnight.  A parsed `YYYY-MM-DD` datetime is
the midnight of its day, and `timedelta(days=k)` adds `k * 86400` seconds. -/

/-- A value of `datetime.now()`: `day` is its date as a day number and `sec`
the time of day in seconds (`0 ≤ sec < 86400` for a real clock). -/
structure Moment where
  day : Int
  sec : Int
deriving DecidableEq, Repr

/-- The timestamp of a `Moment`. -/
def nowTs (n : Moment) : Int := n.day * 86400 + n.sec

/-- The common shape of `has_upcoming_interview` and `needs_followup_soon`:
`today <= parsed_dt <= today + timedelta(days=days_ahead)` on full datetimes,
with an empty string and a `ValueError` both yielding `False`. -/
def dateWithinWindow (n : Moment) (daysAhead : Int) (s : Str) : Bool :=
  if s = [] then false
  else
    match parseDateDays s with
    | none => false
    | some d =>
      decide (nowTs n ≤ tsOfDays d ∧ tsOfDays d ≤ nowTs n + daysAhead * 86400)

/-- `has_upcoming_interview()` with its default `days_ahead = 7`. -/
def hasUpcomingInterview (n : Moment) (j : Job) : Bool :=
  dateWithinWindow n 7 j.interview_date

/-- `needs_followup_soon()` with its default `days_ahead = 3`. -/
def needsFollowupSoon (n : Moment) (j : Job) : Bool :=
  dateWithinWindow n 3 j.next_followup

/-- `has_overdue_followup()`: `datetime.now().date() > followup_dt.date()`,
a pure date comparison. -/
def hasOverdueFollowup (n : Moment) (j : Job) : Bool :=
  if j.next_followup = [] then false
  else
    match parseDateDays j.next_followup with
    | none => false
    | some d => decide (d < n.day)

/-- `get_attention_level()`. -/
def getAttentionLevel (n : Moment) (j : Job) : Str :=
  if hasOverdueFollowup n j then ("urgent").toList
  else if hasUpcomingInterview n j || needsFollowupSoon n j then
    ("soon").toList
  else ("normal").toList

theorem dateWithinWindow_iff (n : Moment) (da : Int) (s : Str) :
    dateWithinWindow n da s = true ↔
    ∃ d, parseDateDays s = some d ∧
      nowTs n ≤ tsOfDays d ∧ tsOfDays d ≤ nowTs n + da * 86400 := by
  unfold dateWithinWindow
  by_cases he : s = []
  · subst he
    have hp : parseDateDays ([] : Str) = none := rfl
    simp [hp]
  · rw [if_neg he]
    cases hp : parseDateDays s with
    | none => simp [hp]
    | some d => simp [hp]

theorem hasOverdueFollowup_iff (n : Moment) (j : Job) :
    hasOverdueFollowup n j = true ↔
    ∃ d, parseDateDays j.next_followup = some d ∧ d < n.day := by
  unfold hasOverdueFollowup
  by_cases he : j.next_followup = []
  · rw [he]
    have hp : parseDateDays ([] : Str) = none := rfl
    simp [hp]
  · rw [if_neg he]
    cases hp : parseDateDays j.next_followup with
    | none => simp [hp]
    | some d => simp [hp]

theorem getAttentionLevel_cases (n : Moment) (j : Job) :
    (hasOverdueFollowup n j = true ∧
      getAttentionLevel n j = ("urgent").toList) ∨
    (hasOverdueFollowup n j = false ∧
      (hasUpcomingInterview n j || needsFollowupSoon n j) = true ∧
      getAttentionLevel n j = ("soon").toList) ∨
    (hasOverdueFollowup n j = false ∧
      (hasUpcomingInterview n j || needsFollowupSoon n j) = false ∧
      getAttentionLevel n j = ("normal").toList) := by
  unfold getAttentionLevel
  cases h1 : hasOverdueFollowup n j
  · cases h2 : (hasUpcomingInterview n j || needsFollowupSoon n j)
    · exact Or.inr (Or.inr ⟨rfl, rfl, by simp [h1, h2]⟩)
    · exact Or.inr (Or.inl ⟨rfl, rfl, by simp [h1, h2]⟩)
  · exact Or.inl ⟨rfl, by simp [h1]⟩

/-! ### C9: attention level -/

def c9now : Moment := { day := daysFromCivil 2024 6 15, sec := 43200 }

def c9job : Job :=
  { mkJob 1 "Acme" "Dev" "2024-01-01" "Applied" with
    interview_date := ("2024-06-15").toList }

/-- C9, counterexample.  At noon of 2024-06-15, a record whose
`interview_date` is that same day (and with no follow-up set) has attention
level `"normal"`, not `"soon"`: `has_upcoming_interview` compares
`datetime.now()` — which carries the time of day — against the parsed
midnight datetime, so `today <= interview_dt` fails for an interview dated
today except exactly at midnight.  The claim says a date equal to today
counts as within the interval. -/
theorem attention_today_interview_not_soon :
    parseDateDays c9job.interview_date = some c9now.day ∧
    (0 : Int) ≤ c9now.sec ∧ c9now.sec < 86400 ∧
    c9job.next_followup = [] ∧
    getAttentionLevel c9now c9job = ("normal").toList := by
  refine ⟨by decide, by decide, by decide, rfl, by decide⟩

/-- C9, amended.  The attention level is a pure function of `interview_date`
and `next_followup` versus now; it is `"urgent"` exactly when
`next_followup` parses and its date is strictly before today (regardless of
the time of day); otherwise `"soon"` exactly when the midnight datetime of a
parsed `interview_date` lies within `[now, now + 7 days]` or that of a
parsed `next_followup` lies within `[now, now + 3 days]` — full-datetime
comparisons against `datetime.now()`, so a date equal to today is inside
the window only when the current time is exactly midnight; otherwise
`"normal"`.  Unparsable or empty date strings count as no date set. -/
theorem attention_characterization (n : Moment) (j : Job) :
    (∀ j' : Job, j'.interview_date = j.interview_date →
      j'.next_followup = j.next_followup →
      getAttentionLevel n j' = getAttentionLevel n j) ∧
    (getAttentionLevel n j = ("urgent").toList ↔
      (∃ d, parseDateDays j.next_followup = some d ∧ d < n.day)) ∧
    (getAttentionLevel n j = ("soon").toList ↔
      ¬ (∃ d, parseDateDays j.next_followup = some d ∧ d < n.day) ∧
      ((∃ d, parseDateDays j.interview_date = some d ∧
          nowTs n ≤ tsOfDays d ∧ tsOfDays d ≤ nowTs n + 7 * 86400) ∨
       (∃ d, parseDateDays j.next_followup = some d ∧
          nowTs n ≤ tsOfDays d ∧ tsOfDays d ≤ nowTs n + 3 * 86400))) ∧
    (getAttentionLevel n j = ("urgent").toList ∨
     getAttentionLevel n j = ("soon").toList ∨
     getAttentionLevel n j = ("normal").toList) := by
  refine ⟨?_, ?_, ?_, ?_⟩
  · intro j' h1 h2
    simp only [getAttentionLevel, hasOverdueFollowup, hasUpcomingInterview,
      needsFollowupSoon, h1, h2]
  · rw [← hasOverdueFollowup_iff]
    rcases getAttentionLevel_cases n j with ⟨h1, he⟩ | ⟨h1, _, he⟩ |
      ⟨h1, _, he⟩ <;> rw [he] <;> simp [h1]
  · rw [← hasOverdueFollowup_iff, ← dateWithinWindow_iff n 7 j.interview_date,
      ← dateWithinWindow_iff n 3 j.next_followup]
    rcases getAttentionLevel_cases n j with ⟨h1, he⟩ | ⟨h1, h2, he⟩ |
      ⟨h1, h2, he⟩
    · rw [he]
      constructor
      · intro h
        exact absurd h (by decide)
      · rintro ⟨hno, -⟩
        exact absurd h1 hno
    · rw [he]
      simp only [hasUpcomingInterview, needsFollowupSoon, Bool.or_eq_true]
        at h2
      exact ⟨fun _ => ⟨by simp [h1], h2⟩, fun _ => rfl⟩
    · rw [he]
      simp only [hasUpcomingInterview, needsFollowupSoon] at h2
      constructor
      · intro h
        exact absurd h (by decide)
      · rintro ⟨-, hw | hw⟩ <;> rw [hw] at h2 <;> simp at h2
  · rcases getAttentionLevel_cases n j with ⟨_, he⟩ | ⟨_, _, he⟩ | ⟨_, _, he⟩
    · exact Or.inl he
    · exact Or.inr (Or.inl he)
    · exact Or.inr (Or.inr he)

def c9Wnow : Moment := { day := daysFromCivil 2024 6 15, sec := 0 }

def c9Wjob : Job :=
  { mkJob 2 "Beta" "Ops" "2024-01-01" "Applied" with
    next_followup := ("2024-06-14").toList }

theorem attention_characterization_witness :
    getAttentionLevel c9Wnow c9Wjob = ("urgent").toList :=
  (attention_characterization c9Wnow c9Wjob).2.1.mpr
    ⟨daysFromCivil 2024 6 14, by decide, by decide⟩

/-! ### Multi-select and bulk delete (`_get_selected_jobs`,
`_show_bulk_delete_confirmation`) -/

/-- `_get_selected_jobs`: the displayed records whose object id is in
`self.selected_jobs` (empty outside multi-select mode). -/
def selectedJobsOf (st : AppState) : List Job :=
  if st.multi_select_mode then
    (displayJobs st.filter_text st.jobs).filter
      (fun j => decide (j.oid ∈ st.selected))
  else []

/-- Python `list.remove(x)`: drop the first element `== x` (field equality). -/
def removeFirstEq : List Job → Job → List Job
  | [], _ => []
  | a :: t, j => if sameFields a j then t else a :: removeFirstEq t j

/-- One iteration of the bulk-delete loop:
`if job in self.jobs: self.jobs.remove(job)` (both via `==`). -/
def bulkRemoveStep (acc : List Job) (j : Job) : List Job :=
  if acc.any (fun a => decide (sameFields a j)) then removeFirstEq acc j
  else acc

/-- The `'y'` branch of `handle_delete_input` in
`_show_bulk_delete_confirmation`: remove each selected record, then leave
multi-select mode and clear the selection (the refresh resets the walker
focus to the top). -/
def bulkDeleteConfirm (st : AppState) : AppState :=
  { st with
    jobs := (selectedJobsOf st).foldl bulkRemoveStep st.jobs
    focus := 0
    multi_select_mode := false
    selected := [] }

/-! ### C6: bulk delete scope -/

def c6J1 : Job := mkJob 1 "Acme" "Dev" "2024-01-01" "Applied"

/-- A second, distinct object with all field values equal to `c6J1`. -/
def c6J2 : Job := { c6J1 with oid := 2 }

def c6St : AppState :=
  { jobs := [c6J1, c6J2], sort_by_status := false, sort_ascending := false
    filter_text := [], focus := 1, multi_select_mode := true, selected := [2] }

/-- C6, counterexample.  With two field-equal but distinct records and only
the second one selected (by identity), bulk delete calls
`self.jobs.remove(job)`, which removes the FIRST field-equal element: the
unselected `c6J1` is removed and the selected object `c6J2` remains — the
claim's identity-based scope fails. -/
theorem bulkDelete_removes_earlier_duplicate :
    selectedJobsOf c6St = [c6J2] ∧
    (bulkDeleteConfirm c6St).jobs = [c6J2] ∧
    c6J2.oid ∈ c6St.selected ∧
    c6J1.oid ∉ c6St.selected ∧
    c6J1 ≠ c6J2 := by
  refine ⟨by decide, by decide, by decide, by decide, by decide⟩

theorem removeFirstEq_of_unique (js : List Job) (s : Job)
    (hdist : js.Pairwise (fun a b => ¬ sameFields a b)) (hs : s ∈ js) :
    removeFirstEq js s = js.filter (fun a => decide (a ≠ s)) := by
  induction js with
  | nil => cases hs
  | cons a t ih =>
    by_cases ha : sameFields a s
    · have has : a = s := by
        by_contra hne
        rcases List.mem_cons.mp hs with h | h
        · exact hne h.symm
        · exact (List.pairwise_cons.mp hdist).1 s h ha
      subst has
      have hkeep : ∀ x ∈ t, decide (x ≠ a) = true := by
        intro x hx
        have hne : ¬ sameFields a x := (List.pairwise_cons.mp hdist).1 x hx
        simp only [decide_eq_true_eq]
        intro hxa
        exact hne (by rw [hxa]; exact sameFields_refl a)
      have h1 : (a :: t).filter (fun x => decide (x ≠ a)) =
          t.filter (fun x => decide (x ≠ a)) := by
        simp
      rw [h1, List.filter_eq_self.mpr hkeep]
      simp only [removeFirstEq, if_pos (sameFields_refl a)]
    · have has : a ≠ s := fun h => ha (h ▸ sameFields_refl a)
      have hst : s ∈ t := by
        rcases List.mem_cons.mp hs with h | h
        · exact absurd h.symm has
        · exact h
      simp only [removeFirstEq, if_neg ha]
      rw [ih (List.pairwise_cons.mp hdist).2 hst]
      simp [has]

theorem bulkFold : ∀ (sel js : List Job),
    js.Pairwise (fun a b => ¬ sameFields a b) →
    (∀ s ∈ sel, s ∈ js) → sel.Nodup →
    sel.foldl bulkRemoveStep js = js.filter (fun a => decide (a ∉ sel))
  | [], js, _, _, _ => by simp
  | s :: rest, js, hdist, hmem, hnd => by
    have hsjs : s ∈ js := hmem s (List.mem_cons_self s rest)
    have hany : js.any (fun a => decide (sameFields a s)) = true := by
      rw [List.any_eq_true]
      exact ⟨s, hsjs, by simp [sameFields_refl]⟩
    have hdist' : (js.filter (fun a => decide (a ≠ s))).Pairwise
        (fun a b => ¬ sameFields a b) :=
      hdist.sublist (List.filter_sublist js)
    have hmem' : ∀ x ∈ rest, x ∈ js.filter (fun a => decide (a ≠ s)) := by
      intro x hx
      refine List.mem_filter.mpr ⟨hmem x (List.mem_cons_of_mem s hx), ?_⟩
      simp only [decide_eq_true_eq]
      intro hxs
      exact (List.nodup_cons.mp hnd).1 (hxs ▸ hx)
    have hnd' : rest.Nodup := (List.nodup_cons.mp hnd).2
    rw [List.foldl_cons]
    show rest.foldl bulkRemoveStep (bulkRemoveStep js s) = _
    rw [show bulkRemoveStep js s = removeFirstEq js s by
        unfold bulkRemoveStep
        rw [if_pos hany],
      removeFirstEq_of_unique js s hdist hsjs,
      bulkFold rest (js.filter (fun a => decide (a ≠ s))) hdist' hmem' hnd',
      List.filter_filter]
    refine List.filter_congr fun a _ => ?_
    simp only [List.mem_cons, not_or, decide_eq_true_eq, Bool.and_eq_true,
      decide_not]
    by_cases h1 : a = s <;> by_cases h2 : a ∈ rest <;> simp [h1, h2]

theorem selectedJobsOf_sublist (st : AppState) :
    (selectedJobsOf st).Sublist st.jobs := by
  unfold selectedJobsOf
  split
  · refine (List.filter_sublist _).trans ?_
    rw [displayJobs_eq_filter]
    exact List.filter_sublist _
  · exact List.nil_sublist _

/-- C6, amended.  Bulk delete removes, for each selected record in display
order, the first canonical record field-equal to it, then always leaves
multi-select mode and clears the selection.  When the canonical records are
pairwise field-distinct, first-field-equal coincides with identity, so
exactly the selected records are removed and every other record — including
records excluded by the filter — remains. -/
theorem bulkDelete_exact_on_distinct (st : AppState)
    (hdist : st.jobs.Pairwise (fun a b => ¬ sameFields a b)) :
    (bulkDeleteConfirm st).jobs =
      st.jobs.filter (fun a => decide (a ∉ selectedJobsOf st)) ∧
    (bulkDeleteConfirm st).multi_select_mode = false ∧
    (bulkDeleteConfirm st).selected = [] := by
  refine ⟨?_, rfl, rfl⟩
  have hnodup : st.jobs.Nodup :=
    hdist.imp fun {a b} hab heq => hab (by rw [heq]; exact sameFields_refl b)
  exact bulkFold (selectedJobsOf st) st.jobs hdist
    (fun s hs => (selectedJobsOf_sublist st).mem hs)
    ((selectedJobsOf_sublist st).nodup hnodup)

def c6WJ1 : Job := mkJob 1 "Acme" "Dev" "2024-01-01" "Applied"

def c6WJ2 : Job := mkJob 2 "Beta" "Ops" "2024-01-02" "Interview"

def c6WJ3 : Job := mkJob 3 "Bravo" "QA" "2024-01-03" "Offer"

/-- Filter "b" displays `[c6WJ2, c6WJ3]`; only `c6WJ3` is selected. -/
def c6WSt : AppState :=
  { jobs := [c6WJ1, c6WJ2, c6WJ3], sort_by_status := false
    sort_ascending := false, filter_text := ("b").toList, focus := 0
    multi_select_mode := true, selected := [3] }

theorem bulkDelete_exact_on_distinct_witness :
    ((bulkDeleteConfirm c6WSt).jobs =
        c6WSt.jobs.filter (fun a => decide (a ∉ selectedJobsOf c6WSt)) ∧
      (bulkDeleteConfirm c6WSt).multi_select_mode = false ∧
      (bulkDeleteConfirm c6WSt).selected = []) ∧
    (bulkDeleteConfirm c6WSt).jobs = [c6WJ1, c6WJ2] :=
  ⟨bulkDelete_exact_on_distinct c6WSt (by decide), by decide⟩

/-! ### Single delete (`_delete_current_job`, `_show_delete_confirmation`) -/

/-- `_delete_current_job` followed by the `'y'` branch of its confirmation
dialog: the focused displayed record is resolved to a canonical index with
`self.jobs.index(job)` — the first field-equal position — and that index is
deleted (`del self.jobs[...]`).  Out-of-range focus or a failed lookup is
swallowed by the source's guard and `except` clause, leaving the state
unchanged. -/
def deleteCurrentConfirm (st : AppState) : AppState :=
  match (displayJobs st.filter_text st.jobs)[st.focus]? with
  | none => st
  | some j =>
    match indexOfEq st.jobs j with
    | none => st
    | some k =>
      let jobs' := st.jobs.eraseIdx k
      { st with
        jobs := jobs'
        focus := if jobs'.length ≤ k ∧ 0 < jobs'.length then jobs'.length - 1
          else 0 }

theorem indexOfEq_spec : ∀ (l : List Job) (j : Job) (k : Nat),
    indexOfEq l j = some k →
    (∃ x, l[k]? = some x ∧ sameFields x j) ∧
    (∀ i, i < k → ∀ x, l[i]? = some x → ¬ sameFields x j)
  | [], _, _, h => by cases h
  | a :: t, j, k, h => by
    by_cases ha : sameFields a j
    · have hk : k = 0 := by
        unfold indexOfEq at h
        rw [if_pos ha] at h
        exact (Option.some.inj h).symm
      subst hk
      exact ⟨⟨a, by simp, ha⟩, fun i hi => absurd hi (Nat.not_lt_zero i)⟩
    · unfold indexOfEq at h
      rw [if_neg ha] at h
      cases hin : indexOfEq t j with
      | none =>
        rw [hin] at h
        cases h
      | some k' =>
        rw [hin] at h
        have hk : k = k' + 1 := (Option.some.inj h).symm
        subst hk
        obtain ⟨⟨x, hx, hsx⟩, hmin⟩ := indexOfEq_spec t j k' hin
        refine ⟨⟨x, by simpa using hx, hsx⟩, ?_⟩
        intro i hi y hy
        cases i with
        | zero =>
          have : y = a := by
            simp only [List.getElem?_cons_zero] at hy
            exact (Option.some.inj hy).symm
          subst this
          exact ha
        | succ i' =>
          have hy' : t[i']? = some y := by simpa using hy
          exact hmin i' (by omega) y hy'

/-! ### C10: single delete resolves by field equality -/

/-- C10.  Confirmed: single-record delete resolves the record to remove by
field equality.  If `j` is the displayed record at the focus position and `k`
is the result of `self.jobs.index(j)`, then confirming deletes canonical
index `k`, the record at `k` is field-equal to `j`, and every smaller index
holds a record NOT field-equal to `j` — so when a field-equal duplicate
precedes the focused record in the canonical list, the earlier duplicate is
the one removed. -/
theorem delete_resolves_by_field_equality (st : AppState) (j : Job) (k : Nat)
    (hj : (displayJobs st.filter_text st.jobs)[st.focus]? = some j)
    (hk : indexOfEq st.jobs j = some k) :
    (deleteCurrentConfirm st).jobs = st.jobs.eraseIdx k ∧
    (∃ x, st.jobs[k]? = some x ∧ sameFields x j) ∧
    (∀ i, i < k → ∀ x, st.jobs[i]? = some x → ¬ sameFields x j) := by
  refine ⟨?_, (indexOfEq_spec st.jobs j k hk).1,
    (indexOfEq_spec st.jobs j k hk).2⟩
  simp only [deleteCurrentConfirm, hj, hk]

def c10J1 : Job := mkJob 1 "Acme" "Dev" "2024-01-01" "Applied"

/-- A later, distinct object with all field values equal to `c10J1`. -/
def c10J2 : Job := { c10J1 with oid := 2 }

/-- No filter; the focus (index 1) is on the later duplicate `c10J2`. -/
def c10St : AppState :=
  { jobs := [c10J1, c10J2], sort_by_status := false, sort_ascending := false
    filter_text := [], focus := 1, multi_select_mode := false, selected := [] }

theorem delete_resolves_by_field_equality_witness :
    (deleteCurrentConfirm c10St).jobs = c10St.jobs.eraseIdx 0 ∧
    (deleteCurrentConfirm c10St).jobs = [c10J2] ∧
    (displayJobs c10St.filter_text c10St.jobs)[c10St.focus]? = some c10J2 ∧
    c10J1 ≠ c10J2 :=
  ⟨(delete_resolves_by_field_equality c10St c10J2 0 (by decide) (by decide)).1,
    by decide, by decide, by decide⟩

end JobTracker
